import Mathlib

/-!
Verification of the option-symbol codec of `polygon/options/options.py`.

Python strings are modelled as `List Char` (`PStr`); Python's dynamic
numbers reaching the strike-price parameters are modelled by the decimal
strings `str()` produces for them (for the OCC builder, which works on
`str(strike_price)` directly) and by an exact int-or-decimal value
(`TdaStrike`) for the TDA codec.  Errors (`raise`) are modelled as
`Except`/`Option` failure.  The process-time century taken from
`datetime.date.today()` is an explicit `century` parameter (its value
today is `"20"`).
-/

deriving instance DecidableEq for Except

namespace PolygonOptions

/-- Python strings, modelled as lists of characters. -/
abbrev PStr := List Char

/-- Coerce a Lean string literal to the `PStr` model. -/
def pstr (s : String) : PStr := s.toList

/-- Python `str.upper()` (ASCII range, as used by the codec). -/
def pUpper (s : PStr) : PStr := s.map Char.toUpper

/-- Python `str.lower()` (ASCII range, as used by the codec). -/
def pLower (s : PStr) : PStr := s.map Char.toLower

/-- Python `s.startswith(p)`. -/
def pStartsWith (p s : PStr) : Bool := s.take p.length == p

/-- Python `s.rjust(w, c)`: pad on the left up to width `w` (never truncates). -/
def rjust (s : PStr) (w : Nat) (c : Char) : PStr := List.replicate (w - s.length) c ++ s

/-- Python `s.ljust(w, c)`: pad on the right up to width `w` (never truncates). -/
def ljust (s : PStr) (w : Nat) (c : Char) : PStr := s ++ List.replicate (w - s.length) c

/-- Numeric value of a decimal digit string (the value `int()` returns on it). -/
def digitsValAux (acc : Nat) : PStr → Nat
  | [] => acc
  | c :: t => digitsValAux (10 * acc + (c.toNat - 48)) t

/-- Numeric value of a decimal digit string. -/
def digitsVal (s : PStr) : Nat := digitsValAux 0 s

/-- All characters are decimal digits. -/
def isDigits (s : PStr) : Bool := s.all Char.isDigit

/-- Python `int(s)` on the strings this codec feeds it: succeeds exactly on
nonempty all-digit strings (the codec never passes signs or whitespace). -/
def pyInt? (s : PStr) : Option Nat :=
  if s.isEmpty then none
  else if isDigits s then some (digitsVal s) else none

/-- `str(int(s))` for a nonneg digit string: drop leading zeros (keep one). -/
def canonDigits (s : PStr) : PStr :=
  let t := s.dropWhile (· == '0')
  if t.isEmpty then ['0'] else t

/-- Python `str(n)` for a natural number, with explicit fuel (the first
argument; `n + 1` fuel always suffices). -/
def pyStrNatAux : Nat → Nat → PStr
  | 0, _ => []
  | fuel + 1, n =>
    if n < 10 then [Nat.digitChar n]
    else pyStrNatAux fuel (n / 10) ++ [Nat.digitChar (n % 10)]

/-- Python `str(n)` for a natural number. -/
def pyStrNat (n : Nat) : PStr := pyStrNatAux (n + 1) n

/-- A two-digit zero-padded field, as produced by `strftime` (`%y`/`%m`/`%d`). -/
def pad2 (n : Nat) : PStr := rjust (pyStrNat n) 2 '0'

/-- Calendar dates, modelling `datetime.date`. -/
structure Date where
  y : Nat
  m : Nat
  d : Nat
deriving DecidableEq, Repr

/-- Gregorian leap year, as `datetime` uses. -/
def isLeapYear (y : Nat) : Bool := (y % 4 == 0 && y % 100 != 0) || y % 400 == 0

/-- Days in a month, as `datetime` uses. -/
def daysInMonth (y m : Nat) : Nat :=
  if m == 2 then (if isLeapYear y then 29 else 28)
  else if m == 4 || m == 6 || m == 9 || m == 11 then 30
  else 31

/-- The validity check `datetime.date(y, m, d)` performs (`MINYEAR = 1`,
`MAXYEAR = 9999`). -/
abbrev validDate (dt : Date) : Prop :=
  1 ≤ dt.y ∧ dt.y ≤ 9999 ∧ 1 ≤ dt.m ∧ dt.m ≤ 12 ∧ 1 ≤ dt.d ∧ dt.d ≤ daysInMonth dt.y dt.m

/-- `datetime.date(y, m, d)`: raises on invalid components. -/
def mkDate? (y m d : Nat) : Option Date :=
  if validDate ⟨y, m, d⟩ then some ⟨y, m, d⟩ else none

/-- `expiry.strftime('%y%m%d')`. -/
def fmtYYMMDD (dt : Date) : PStr := pad2 (dt.y % 100) ++ pad2 dt.m ++ pad2 dt.d

/-- `expiry.strftime('%m%d%y')`. -/
def fmtMMDDYY (dt : Date) : PStr := pad2 dt.m ++ pad2 dt.d ++ pad2 (dt.y % 100)

/-- The `expiry` argument of the builders: a `datetime.date`/`datetime.datetime`
(collapsed: both are formatted with `strftime`) or a string. -/
inductive Expiry where
  | date (d : Date)
  | str (s : PStr)
deriving DecidableEq

/-- Line 40 (and, identically, line 102):
`call_or_put = 'C' if call_or_put.lower() in ['c', 'call'] else 'P'`. -/
def buildTypeChar (cp : PStr) : Char :=
  if pLower cp == pstr "c" || pLower cp == pstr "call" then 'C' else 'P'

/-- Python `s.split(sep)` for a one-character separator. -/
def pySplit (sep : Char) : PStr → List PStr
  | [] => [[]]
  | c :: rest =>
    let r := pySplit sep rest
    if c = sep then [] :: r else (c :: r.headD []) :: r.tail

/-- Lines 42-46: the 8-character strike field of `build_option_symbol`.
`str(strike_price)` is the argument here; if it contains a dot the parts
before/after it (`split('.')[0]` / `split('.')[1]`) are padded to 5/3 digits
(the decimal part also truncated to 3), else `str(int(strike_price))` is
padded to 5 digits and `'000'` appended. -/
def strikeField (sp : PStr) : PStr :=
  if sp.contains '.' then
    rjust ((pySplit '.' sp).headD []) 5 '0' ++
      (ljust (((pySplit '.' sp).drop 1).headD []) 3 '0').take 3
  else
    rjust (canonDigits sp) 5 '0' ++ pstr "000"

/-- Lines 17-51: `build_option_symbol(underlying_symbol, expiry, call_or_put,
strike_price, prefix_o)`.  The strike argument is given as its `str()` form.
Raises (`.error`) exactly when a string expiry does not have 6 characters. -/
def build_option_symbol (u : PStr) (expiry : Expiry) (cp : PStr) (sp : PStr)
    (prefix_o : Bool) : Except PStr PStr :=
  match expiry with
  | .str s =>
    if s.length ≠ 6 then
      .error (pstr "Expiry string must have 6 characters. Format is: YYMMDD")
    else
      .ok ((if prefix_o then pstr "O:" else []) ++
        pUpper u ++ s ++ buildTypeChar cp :: strikeField sp)
  | .date d =>
    .ok ((if prefix_o then pstr "O:" else []) ++
      pUpper u ++ fmtYYMMDD d ++ buildTypeChar cp :: strikeField sp)

/-- Lines 997-998: strip a leading `'O:'` marker (case-sensitive, as
`startswith('O:')` is). -/
def stripMarker (s : PStr) : PStr :=
  if pStartsWith (pstr "O:") s then s.drop 2 else s

/-- The parsed polygon-format symbol: the attributes `OptionSymbol.__init__`
sets in its `polygon` branch.  `strike_milli` is the integer value of the
strike digits; the source stores `strike_milli / 1000` computed with Python
float division (see C9). -/
structure OptionSymbol where
  underlying_symbol : PStr
  expiry : Date
  call_or_put : Char
  strike_milli : Nat
  option_symbol : PStr
deriving DecidableEq, Repr

/-- Lines 996-1016: `OptionSymbol.__init__` in the `polygon` format (and hence
`parse_option_symbol` with the default object output and date expiry format).
`century` is the model of `datetime.date.today().strftime('%Y')[:2]`; today
that is `"20"`.  Any Python exception (from `int()`, indexing, or
`datetime.date`) is `none`. -/
def parse_option_symbol (century : PStr) (s0 : PStr) : Option OptionSymbol :=
  let s := stripMarker s0
  let u0 := s.take (s.length - 15)
  let len := u0.length
  let u := u0.filter (fun c => !c.isDigit)
  let e6 := (s.drop len).take 6
  do
    let yy ← pyInt? (century ++ e6.take 2)
    let mm ← pyInt? ((e6.drop 2).take 2)
    let dd ← pyInt? ((e6.drop 4).take 2)
    let expiry ← mkDate? yy mm dd
    let cp ← (s.drop (len + 6)).head?
    let milli ← pyInt? (s.drop (len + 7))
    some ⟨u, expiry, cp.toUpper, milli, u ++ s.drop len⟩

/-- The Python number stored in `strike_price` by the TDA decode path and
accepted by the TDA builder: an `int`, or a `float` whose `repr` is
`ip.frac`.  Floats are represented by their exact decimal value; the strike
model is therefore partial, defined only on the `floatReprSafe` domain where
IEEE-754 binary64 `float()`/`repr` coincide with the exact decimal. -/
inductive TdaStrike where
  | int (n : Nat)
  | dec (ip : Nat) (frac : PStr)
deriving DecidableEq, Repr

/-- Drop trailing `'0'` characters. -/
def stripTrailingZeros (f : PStr) : PStr := (f.reverse.dropWhile (· == '0')).reverse

/-- The domain on which this file models Python's binary64 `float()` and
`repr` by exact decimals: at most 15 digits in all (binary64 converts every
decimal of up to 15 significant digits injectively and `repr` recovers it,
and represents every integer below `2 ^ 53` exactly), and no non-integral
value below `1e-4` (there `repr` switches to scientific notation, which
`tdaStrikeRender` does not model).  The bound counts all written digits, a
conservative under-approximation of "15 significant digits". -/
def floatReprSafe (x : PStr) : Bool :=
  if x.contains '.' then
    let ip := (pySplit '.' x).headD []
    let f := ((pySplit '.' x).drop 1).headD []
    decide (ip.length + f.length ≤ 15) &&
      !((canonDigits ip == ['0']) && (f.take 4).all (· == '0')
        && !(stripTrailingZeros f).isEmpty)
  else decide (x.length ≤ 15)

/-- Line 1046: `int(float(x)) if float(x) == int(float(x)) else float(x)` for
the strike substring `x`, modelled on the `floatReprSafe` domain, where the
binary64 conversions are exact: `float(x)` succeeds on the digit strings
(with at most one dot, not all parts empty); an integral value becomes an
`int`, anything else the float value, whose `repr` is canonical (no leading
zeros in the integer part, no trailing zeros in the fraction).  Outside
`floatReprSafe` the binary64 value is not the exact decimal (for example
`float('1.0000000000000001')` collapses to `1.0`), so the model is partial
there and returns `none`, just as for a raising `float()`; no theorem below
evaluates the codec outside the domain. -/
def pyFloatStrike? (x : PStr) : Option TdaStrike :=
  if floatReprSafe x then
    if x.contains '.' then
      let ip := (pySplit '.' x).headD []
      let f := ((pySplit '.' x).drop 1).headD []
      if ((pySplit '.' x).length == 2) && isDigits ip && isDigits f
          && !(ip.isEmpty && f.isEmpty) then
        if (stripTrailingZeros f).isEmpty then some (.int (digitsVal ip))
        else some (.dec (digitsVal ip) (stripTrailingZeros f))
      else none
    else if !x.isEmpty && isDigits x then some (.int (digitsVal x))
    else none
  else none

/-- Line 104: `int(float(sp)) if int(float(sp)) == float(sp) else sp` applied
by the TDA builder to its `strike_price` argument. -/
def tdaStrikeNormalize : TdaStrike → TdaStrike
  | .int n => .int n
  | .dec ip f => if (stripTrailingZeros f).isEmpty then .int ip else .dec ip f

/-- The text an f-string interpolation produces for a `TdaStrike` value
(`str`/`repr` of the Python number). -/
def tdaStrikeRender : TdaStrike → PStr
  | .int n => pyStrNat n
  | .dec ip f => pyStrNat ip ++ '.' :: f

/-- Lines 80-109: `build_option_symbol_for_tda(underlying_symbol, expiry,
call_or_put, strike_price, format_)`.  Never raises: a string expiry is used
as-is with no length check. -/
def build_option_symbol_for_tda (u : PStr) (expiry : Expiry) (cp : PStr)
    (sp : TdaStrike) (format_ : PStr) : PStr :=
  let e := match expiry with
    | .date d => fmtMMDDYY d
    | .str s => s
  let cpc := buildTypeChar cp
  let sp := tdaStrikeNormalize sp
  if format_ == pstr "dot" then '.' :: (u ++ e ++ cpc :: tdaStrikeRender sp)
  else u ++ '_' :: (e ++ cpc :: tdaStrikeRender sp)

/-- The parsed TDA-format symbol: the attributes `OptionSymbol.__init__` sets
in its `tda` branch. -/
structure OptionSymbolTda where
  underlying_symbol : PStr
  expiry : Date
  call_or_put : Char
  strike : TdaStrike
  option_symbol : PStr
deriving DecidableEq, Repr

/-- Lines 1022-1032: the `dot` preprocessing of the `tda` branch, applied to
`option_symbol[1:].upper()`: scan the leading alphabetic characters (`num`),
then rebuild as
`sym[:num] + '_' + sym[num+2:num+4] + sym[num+4:num+6] + sym[num:num+2] + sym[num+6:]`. -/
def dotRearrange (t : PStr) : PStr :=
  let num := (t.takeWhile Char.isAlpha).length
  t.take num ++ '_' ::
    ((t.drop (num + 2)).take 2 ++ (t.drop (num + 4)).take 2 ++
      (t.drop num).take 2 ++ t.drop (num + 6))

/-- Lines 1021-1052: `OptionSymbol.__init__` in the `tda` format with
sub-variant `fmt` (`"dot"` or `"underscore"`).  `century` models
`datetime.date.today().strftime('%Y')[:2]`.  Any Python exception is
`none`; through `pyFloatStrike?` the model is also partial, with `none`
additionally covering strike substrings outside the `floatReprSafe`
domain. -/
def parseTdaSymbol (century : PStr) (s0 : PStr) (fmt : PStr) : Option OptionSymbolTda :=
  let s := if fmt == pstr "dot" then dotRearrange (pUpper (s0.drop 1)) else s0
  let parts := pySplit '_' s
  let u := parts.headD []
  do
    let rest ← parts[1]?
    let e6 := rest.take 6
    let yy ← pyInt? (century ++ (e6.drop 4).take 2)
    let mm ← pyInt? (e6.take 2)
    let dd ← pyInt? ((e6.drop 2).take 2)
    let expiry ← mkDate? yy mm dd
    let cp ← (rest.drop 6).head?
    let strike ← pyFloatStrike? (rest.drop 7)
    some ⟨u, expiry, cp, strike, s⟩

/-- Lines 123-125 (also 152-154): the TDA sub-variant selected for a symbol:
`dot` when it starts with `'.'`, else `underscore`. -/
def tdaVariantOf (s : PStr) : PStr :=
  if pStartsWith (pstr ".") s then pstr "dot" else pstr "underscore"

/-- Lines 112-139: `parse_option_symbol_from_tda` (object output, date expiry
format): pick the `dot` sub-variant when the symbol starts with `'.'`, then
parse. -/
def parse_option_symbol_from_tda (century : PStr) (s : PStr) : Option OptionSymbolTda :=
  parseTdaSymbol century s (tdaVariantOf s)

/-- A strike substring on which the TDA decode/encode strike handling is the
identity and the float model is exact: it lies in the `floatReprSafe` domain,
it parses (`float()` succeeds), and the parsed number prints back as the same
string.  Strings outside the domain, such as `"1.0000000000000001"` (whose
binary64 value is the integer 1, re-encoded as `"1"` by the program), are not
canonical. -/
def tdaStrikeCanon (x : PStr) : Bool :=
  match pyFloatStrike? x with
  | some k => tdaStrikeRender (tdaStrikeNormalize k) == x
  | none => false

/-- Lines 180-194: `detect_symbol_format` returns `'tda'`, `'polygon'` or
`False`. -/
inductive SymbolFormat where
  | tda
  | polygon
  | unrecognized
deriving DecidableEq, Repr

/-- Lines 180-194: `detect_symbol_format(option_symbol)`. -/
def detect_symbol_format (s : PStr) : SymbolFormat :=
  if pStartsWith (pstr ".") s || s.contains '_' then .tda
  else if pStartsWith (pstr "O:") s || s.length > 15 then .polygon
  else .unrecognized

/-- Lines 1059-1073: `ensure_prefix(symbol)`. -/
def ensure_prefix (s : PStr) : Except PStr PStr :=
  if s.length < 15 then
    .error (pstr "Option symbol length must at least be 15 letters.")
  else if pStartsWith (pstr "O:") (pUpper s) then .ok (pUpper s)
  else .ok (pstr "O:" ++ pUpper s)


/-- The integer part the strike encoding works on: `split('.')[0]` when the
rendered strike contains a dot, else `str(int(strike_price))`. -/
def strikeIntPart (sp : PStr) : PStr :=
  if sp.contains '.' then (pySplit '.' sp).headD [] else canonDigits sp

/-- The fractional digits of the rendered strike (`split('.')[1]`), empty for
an integral strike. -/
def strikeFracPart (sp : PStr) : PStr :=
  if sp.contains '.' then ((pySplit '.' sp).drop 1).headD [] else []

/-- The rendered strike strings `str()` produces for the valid (nonnegative,
decimal) strike numbers: either all digits, or digits on both sides of a
single dot. -/
def wfStrike (sp : PStr) : Bool :=
  match pySplit '.' sp with
  | [s] => !s.isEmpty && isDigits s
  | [a, b] => !a.isEmpty && isDigits a && !b.isEmpty && isDigits b
  | _ => false

/-- Spec-side comparison metric: the strike value in thousandths ("3-decimal
precision"), truncating the fractional digits to at most 3.  Defined from the
spec sentence, to compare the decoded strike against the encoder input. -/
def specStrikeMilli (sp : PStr) : Nat :=
  1000 * digitsVal (strikeIntPart sp) +
    digitsVal ((strikeFracPart sp).take 3) * 10 ^ (3 - (strikeFracPart sp).length)

/-! ### Basic lemmas about digit strings -/

theorem digitsValAux_append (a b : PStr) (acc : Nat) :
    digitsValAux acc (a ++ b) = digitsValAux (digitsValAux acc a) b := by
  induction a generalizing acc with
  | nil => rfl
  | cons c t ih => exact ih _

theorem digitsValAux_acc (s : PStr) (acc : Nat) :
    digitsValAux acc s = acc * 10 ^ s.length + digitsValAux 0 s := by
  induction s generalizing acc with
  | nil =>
    show acc = acc * 10 ^ 0 + 0
    omega
  | cons c t ih =>
    show digitsValAux (10 * acc + (c.toNat - 48)) t
      = acc * 10 ^ (t.length + 1) + digitsValAux (10 * 0 + (c.toNat - 48)) t
    rw [ih (10 * acc + (c.toNat - 48)), ih (10 * 0 + (c.toNat - 48)), pow_succ]
    ring

theorem digitsVal_append (a b : PStr) :
    digitsVal (a ++ b) = digitsVal a * 10 ^ b.length + digitsVal b := by
  rw [digitsVal, digitsValAux_append, digitsValAux_acc]
  rfl

theorem digitsVal_all_zero (s : PStr) (h : ∀ c ∈ s, c = '0') : digitsVal s = 0 := by
  induction s with
  | nil => rfl
  | cons c t ih =>
    have hc : c = '0' := h c (by simp)
    have h2 : digitsVal (c :: t) = digitsVal t := by
      rw [hc]
      show digitsValAux (10 * 0 + ('0'.toNat - 48)) t = digitsValAux 0 t
      rfl
    rw [h2]
    exact ih (fun c hc => h c (by simp [hc]))

theorem digitsVal_replicate_zero (k : Nat) : digitsVal (List.replicate k '0') = 0 :=
  digitsVal_all_zero _ (fun _ hc => (List.eq_of_mem_replicate hc))

theorem digitsVal_append_zeros (a : PStr) (k : Nat) :
    digitsVal (a ++ List.replicate k '0') = digitsVal a * 10 ^ k := by
  rw [digitsVal_append, digitsVal_replicate_zero, List.length_replicate, Nat.add_zero]

theorem digitsVal_zeros_append (a : PStr) (k : Nat) :
    digitsVal (List.replicate k '0' ++ a) = digitsVal a := by
  rw [digitsVal_append, digitsVal_replicate_zero, Nat.zero_mul, Nat.zero_add]

theorem digitsVal_rjust_zero (s : PStr) (w : Nat) :
    digitsVal (rjust s w '0') = digitsVal s := digitsVal_zeros_append s _

theorem length_rjust (s : PStr) (w : Nat) (c : Char) :
    (rjust s w c).length = max w s.length := by
  simp only [rjust, List.length_append, List.length_replicate]
  omega

theorem length_ljust (s : PStr) (w : Nat) (c : Char) :
    (ljust s w c).length = max w s.length := by
  simp only [ljust, List.length_append, List.length_replicate]
  omega

theorem isDigits_append (a b : PStr) :
    isDigits (a ++ b) = (isDigits a && isDigits b) := List.all_append

theorem isDigits_replicate_zero (k : Nat) : isDigits (List.replicate k '0') = true := by
  simp only [isDigits, List.all_eq_true]
  intro c hc
  rw [List.eq_of_mem_replicate hc]
  decide

theorem isDigits_rjust_zero (s : PStr) (w : Nat) (h : isDigits s = true) :
    isDigits (rjust s w '0') = true := by
  rw [rjust, isDigits_append, isDigits_replicate_zero, h]
  rfl

theorem isDigits_ljust_zero (s : PStr) (w : Nat) (h : isDigits s = true) :
    isDigits (ljust s w '0') = true := by
  rw [ljust, isDigits_append, isDigits_replicate_zero, h]
  rfl

theorem isDigits_take (s : PStr) (n : Nat) (h : isDigits s = true) :
    isDigits (s.take n) = true := by
  rw [isDigits, List.all_eq_true] at h ⊢
  exact fun c hc => h c (List.take_subset n s hc)

theorem isDigits_dropWhile (s : PStr) (p : Char → Bool) (h : isDigits s = true) :
    isDigits (s.dropWhile p) = true := by
  rw [isDigits, List.all_eq_true] at h ⊢
  exact fun c hc => h c (List.dropWhile_subset p hc)

theorem pyInt?_of_digits (s : PStr) (hne : s ≠ []) (h : isDigits s = true) :
    pyInt? s = some (digitsVal s) := by
  simp [pyInt?, List.isEmpty_iff, hne, h]

theorem canonDigits_val (s : PStr) : digitsVal (canonDigits s) = digitsVal s := by
  unfold canonDigits
  have hs : s = s.takeWhile (· == '0') ++ s.dropWhile (· == '0') :=
    (List.takeWhile_append_dropWhile _ _).symm
  have htw : ∀ c ∈ s.takeWhile (· == '0'), c = '0' := by
    intro c hc
    have := List.mem_takeWhile_imp hc
    exact eq_of_beq this
  by_cases h : (s.dropWhile (· == '0')).isEmpty
  · simp only [h, if_pos]
    rw [List.isEmpty_iff] at h
    conv_rhs => rw [hs, h, List.append_nil]
    rw [digitsVal_all_zero _ htw]
    decide
  · simp only [h, if_neg, Bool.false_eq_true, not_false_iff]
    conv_rhs => rw [hs]
    rw [digitsVal_append]
    rw [digitsVal_all_zero _ htw, Nat.zero_mul, Nat.zero_add]

theorem isDigits_canonDigits (s : PStr) (h : isDigits s = true) :
    isDigits (canonDigits s) = true := by
  unfold canonDigits
  by_cases he : (s.dropWhile (· == '0')).isEmpty
  · simp only [he, if_pos]
    decide
  · simp only [he, Bool.false_eq_true, if_neg, not_false_iff]
    exact isDigits_dropWhile s _ h

/-! ### Lemmas about decimal rendering (`pyStrNat`, `pad2`) -/

theorem digitChar_isDigit : ∀ n, n < 10 → (Nat.digitChar n).isDigit = true := by decide

theorem toNat_digitChar : ∀ n, n < 10 → (Nat.digitChar n).toNat = 48 + n := by decide

theorem pyStrNat_lt10 (n : Nat) (h : n < 10) : pyStrNat n = [Nat.digitChar n] := by
  unfold pyStrNat pyStrNatAux
  rw [if_pos h]

theorem pyStrNat_two_digit (n : Nat) (h10 : 10 ≤ n) (h100 : n < 100) :
    pyStrNat n = [Nat.digitChar (n / 10), Nat.digitChar (n % 10)] := by
  obtain ⟨k, rfl⟩ : ∃ k, n = k + 1 := ⟨n - 1, by omega⟩
  show pyStrNatAux (k + 2) (k + 1) = _
  rw [pyStrNatAux, if_neg (by omega)]
  have hdiv : (k + 1) / 10 < 10 := by omega
  rw [pyStrNatAux, if_pos hdiv]
  rfl

theorem digitsVal_single_digitChar (n : Nat) (h : n < 10) :
    digitsVal [Nat.digitChar n] = n := by
  show digitsValAux (10 * 0 + ((Nat.digitChar n).toNat - 48)) [] = n
  rw [toNat_digitChar n h]
  show 10 * 0 + (48 + n - 48) = n
  omega

theorem digitsVal_cons (c : Char) (t : PStr) :
    digitsVal (c :: t) = (c.toNat - 48) * 10 ^ t.length + digitsVal t := by
  show digitsValAux (10 * 0 + (c.toNat - 48)) t = _
  rw [digitsValAux_acc]
  simp only [Nat.mul_zero, Nat.zero_add]
  rfl

theorem length_pad2 (n : Nat) (h : n < 100) : (pad2 n).length = 2 := by
  by_cases h10 : n < 10
  · rw [pad2, pyStrNat_lt10 n h10, length_rjust]
    rfl
  · rw [pad2, pyStrNat_two_digit n (by omega) h, length_rjust]
    rfl

theorem isDigits_pad2 (n : Nat) (h : n < 100) : isDigits (pad2 n) = true := by
  by_cases h10 : n < 10
  · rw [pad2, pyStrNat_lt10 n h10]
    exact isDigits_rjust_zero _ _ (by
      show (Nat.digitChar n).isDigit && true = true
      rw [digitChar_isDigit n h10]
      rfl)
  · rw [pad2, pyStrNat_two_digit n (by omega) h]
    exact isDigits_rjust_zero _ _ (by
      show ((Nat.digitChar ((n : Nat) / 10)).isDigit && ((Nat.digitChar (n % 10)).isDigit && true)) = true
      rw [digitChar_isDigit _ (by omega), digitChar_isDigit _ (by omega)]
      rfl)

theorem digitsVal_pad2 (n : Nat) (h : n < 100) : digitsVal (pad2 n) = n := by
  rw [pad2, digitsVal_rjust_zero]
  by_cases h10 : n < 10
  · rw [pyStrNat_lt10 n h10, digitsVal_single_digitChar n h10]
  · rw [pyStrNat_two_digit n (by omega) h, digitsVal_cons,
      digitsVal_single_digitChar _ (by omega), toNat_digitChar _ (by omega)]
    show (48 + n / 10 - 48) * 10 ^ 1 + n % 10 = n
    omega

theorem pad2_ne_nil (n : Nat) (h : n < 100) : pad2 n ≠ [] := by
  intro hc
  have := length_pad2 n h
  rw [hc] at this
  exact absurd this (by decide)

/-! ### Lemmas about `pySplit` -/

theorem pySplit_ne_nil (sep : Char) (s : PStr) : pySplit sep s ≠ [] := by
  cases s with
  | nil => exact fun h => List.noConfusion h
  | cons c t =>
    show (if c = sep then [] :: pySplit sep t
      else (c :: (pySplit sep t).headD []) :: (pySplit sep t).tail) ≠ []
    by_cases h : c = sep
    · rw [if_pos h]
      exact fun h => List.noConfusion h
    · rw [if_neg h]
      exact fun h => List.noConfusion h

theorem pySplit_of_no_sep (sep : Char) (s : PStr) (h : ∀ c ∈ s, c ≠ sep) :
    pySplit sep s = [s] := by
  induction s with
  | nil => rfl
  | cons c t ih =>
    have hc : c ≠ sep := h c (by simp)
    have ht : pySplit sep t = [t] := ih (fun c hc => h c (by simp [hc]))
    show (if c = sep then [] :: pySplit sep t
      else (c :: (pySplit sep t).headD []) :: (pySplit sep t).tail) = [c :: t]
    rw [if_neg hc, ht]
    rfl

theorem pySplit_pair (sep : Char) (a b : PStr)
    (ha : ∀ c ∈ a, c ≠ sep) (hb : ∀ c ∈ b, c ≠ sep) :
    pySplit sep (a ++ sep :: b) = [a, b] := by
  induction a with
  | nil =>
    show (if sep = sep then [] :: pySplit sep b
      else (sep :: (pySplit sep b).headD []) :: (pySplit sep b).tail) = [[], b]
    rw [if_pos rfl, pySplit_of_no_sep sep b hb]
  | cons c a' ih =>
    have hc : c ≠ sep := ha c (by simp)
    have ha' : pySplit sep (a' ++ sep :: b) = [a', b] := ih (fun c hc => ha c (by simp [hc]))
    show (if c = sep then [] :: pySplit sep (a' ++ sep :: b)
      else (c :: (pySplit sep (a' ++ sep :: b)).headD []) :: (pySplit sep (a' ++ sep :: b)).tail)
      = [c :: a', b]
    rw [if_neg hc, ha']
    rfl

theorem pySplit_eq_single (sep : Char) (s a : PStr) (h : pySplit sep s = [a]) :
    s = a ∧ ∀ c ∈ a, c ≠ sep := by
  induction s generalizing a with
  | nil =>
    have : ([] : PStr) = a := List.head_eq_of_cons_eq h
    subst this
    exact ⟨rfl, by simp⟩
  | cons c t ih =>
    by_cases hc : c = sep
    · exfalso
      have h2 : ([] : PStr) :: pySplit sep t = [a] := by
        rw [← h]
        show _ = (if c = sep then [] :: pySplit sep t
          else (c :: (pySplit sep t).headD []) :: (pySplit sep t).tail)
        rw [if_pos hc]
      have := List.tail_eq_of_cons_eq h2
      exact pySplit_ne_nil sep t this
    · have h2 : (c :: (pySplit sep t).headD []) :: (pySplit sep t).tail = [a] := by
        rw [← h]
        show _ = (if c = sep then [] :: pySplit sep t
          else (c :: (pySplit sep t).headD []) :: (pySplit sep t).tail)
        rw [if_neg hc]
      have hh := List.head_eq_of_cons_eq h2
      have htl := List.tail_eq_of_cons_eq h2
      obtain ⟨p, ptl, hp⟩ : ∃ p ptl, pySplit sep t = p :: ptl := by
        cases hq : pySplit sep t with
        | nil => exact absurd hq (pySplit_ne_nil sep t)
        | cons p ptl => exact ⟨p, ptl, rfl⟩
      rw [hp] at htl hh
      simp only [List.headD_cons] at hh
      simp only [List.tail_cons] at htl
      subst htl
      obtain ⟨ht, hfree⟩ := ih p (by rw [hp])
      subst ht
      constructor
      · rw [← hh]
      · intro x hx
        rw [← hh] at hx
        rcases List.mem_cons.1 hx with h1 | h1
        · rw [h1]; exact hc
        · exact hfree x h1

theorem pySplit_eq_pair_inv (sep : Char) (s a b : PStr) (h : pySplit sep s = [a, b]) :
    s = a ++ sep :: b ∧ (∀ c ∈ a, c ≠ sep) ∧ ∀ c ∈ b, c ≠ sep := by
  induction s generalizing a b with
  | nil =>
    exact List.noConfusion (List.tail_eq_of_cons_eq h)
  | cons c t ih =>
    by_cases hc : c = sep
    · have h2 : ([] : PStr) :: pySplit sep t = [a, b] := by
        rw [← h]
        show _ = (if c = sep then [] :: pySplit sep t
          else (c :: (pySplit sep t).headD []) :: (pySplit sep t).tail)
        rw [if_pos hc]
      have ha : ([] : PStr) = a := List.head_eq_of_cons_eq h2
      have htl : pySplit sep t = [b] := List.tail_eq_of_cons_eq h2
      obtain ⟨htb, hfree⟩ := pySplit_eq_single sep t b htl
      subst hc
      subst htb
      refine ⟨by rw [← ha]; rfl, by rw [← ha]; simp, hfree⟩
    · have h2 : (c :: (pySplit sep t).headD []) :: (pySplit sep t).tail = [a, b] := by
        rw [← h]
        show _ = (if c = sep then [] :: pySplit sep t
          else (c :: (pySplit sep t).headD []) :: (pySplit sep t).tail)
        rw [if_neg hc]
      have hh := List.head_eq_of_cons_eq h2
      have htl := List.tail_eq_of_cons_eq h2
      obtain ⟨p, ptl, hp⟩ : ∃ p ptl, pySplit sep t = p :: ptl := by
        cases hq : pySplit sep t with
        | nil => exact absurd hq (pySplit_ne_nil sep t)
        | cons p ptl => exact ⟨p, ptl, rfl⟩
      rw [hp] at hh htl
      simp only [List.headD_cons] at hh
      simp only [List.tail_cons] at htl
      subst htl
      obtain ⟨ht, hfp, hfb⟩ := ih p b (by rw [hp])
      subst ht
      refine ⟨by rw [← hh]; rfl, ?_, hfb⟩
      intro x hx
      rw [← hh] at hx
      rcases List.mem_cons.1 hx with h1 | h1
      · rw [h1]; exact hc
      · exact hfp x h1

theorem contains_eq_false_of_no_mem (sp : PStr) (c : Char) (h : c ∉ sp) :
    sp.contains c = false := by
  simp [List.contains, h]

theorem contains_eq_true_of_mem (sp : PStr) (c : Char) (h : c ∈ sp) :
    sp.contains c = true := by
  simp [List.contains, h]

/-- Inversion for well-formed rendered strikes: all digits (no dot), or a
digits-dot-digits decomposition. -/
theorem wfStrike_cases (sp : PStr) (h : wfStrike sp = true) :
    (sp.contains '.' = false ∧ sp ≠ [] ∧ isDigits sp = true)
    ∨ (∃ a b, sp = a ++ '.' :: b ∧ pySplit '.' sp = [a, b] ∧
        a ≠ [] ∧ isDigits a = true ∧ b ≠ [] ∧ isDigits b = true) := by
  unfold wfStrike at h
  cases hq : pySplit '.' sp with
  | nil => exact absurd hq (pySplit_ne_nil '.' sp)
  | cons p ptl =>
    cases ptl with
    | nil =>
      rw [hq] at h
      simp only [Bool.and_eq_true, Bool.not_eq_true'] at h
      obtain ⟨hts, hfree⟩ := pySplit_eq_single '.' sp p hq
      subst hts
      left
      refine ⟨contains_eq_false_of_no_mem _ _ (fun hm => hfree _ hm rfl), ?_, h.2⟩
      intro hnil
      rw [hnil] at h
      exact absurd h.1 (by decide)
    | cons q qtl =>
      cases qtl with
      | nil =>
        rw [hq] at h
        simp only [Bool.and_eq_true, Bool.not_eq_true'] at h
        obtain ⟨hts, hfp, hfq⟩ := pySplit_eq_pair_inv '.' sp p q hq
        right
        refine ⟨p, q, hts, rfl, ?_, h.1.1.2, ?_, h.2⟩
        · intro hnil
          rw [hnil] at h
          exact absurd h.1.1.1 (by decide)
        · intro hnil
          rw [hnil] at h
          exact absurd h.1.2 (by decide)
      | cons r rtl =>
        rw [hq] at h
        exact Bool.noConfusion (show false = true from h)

/-! ### The strike field of the OCC-style builder -/

theorem strikeField_no_dot (sp : PStr) (h : sp.contains '.' = false) :
    strikeField sp = rjust (canonDigits sp) 5 '0' ++ pstr "000" := by
  unfold strikeField
  rw [h]
  rfl

theorem strikeIntPart_no_dot (sp : PStr) (h : sp.contains '.' = false) :
    strikeIntPart sp = canonDigits sp := by
  unfold strikeIntPart
  rw [h]
  rfl

theorem strikeFracPart_no_dot (sp : PStr) (h : sp.contains '.' = false) :
    strikeFracPart sp = [] := by
  unfold strikeFracPart
  rw [h]
  rfl

theorem strikeField_dot (sp a b : PStr) (hc : sp.contains '.' = true)
    (h : pySplit '.' sp = [a, b]) :
    strikeField sp = rjust a 5 '0' ++ (ljust b 3 '0').take 3 := by
  unfold strikeField
  rw [hc, h]
  rfl

theorem strikeIntPart_dot (sp a b : PStr) (hc : sp.contains '.' = true)
    (h : pySplit '.' sp = [a, b]) : strikeIntPart sp = a := by
  unfold strikeIntPart
  rw [hc, h]
  rfl

theorem strikeFracPart_dot (sp a b : PStr) (hc : sp.contains '.' = true)
    (h : pySplit '.' sp = [a, b]) : strikeFracPart sp = b := by
  unfold strikeFracPart
  rw [hc, h]
  rfl

theorem take3_ljust3 (f : PStr) (h : f.length ≤ 3) :
    (ljust f 3 '0').take 3 = f ++ List.replicate (3 - f.length) '0' := by
  rw [ljust, List.take_of_length_le]
  simp only [List.length_append, List.length_replicate]
  omega

theorem length_take3_ljust3 (f : PStr) : ((ljust f 3 '0').take 3).length = 3 := by
  rw [List.length_take, length_ljust]
  omega

theorem isDigits_take3_ljust3 (f : PStr) (h : isDigits f = true) :
    isDigits ((ljust f 3 '0').take 3) = true :=
  isDigits_take _ _ (isDigits_ljust_zero _ _ h)

/-- The strike field on a well-formed strike whose integer part fits in 5
digits: 8 digit characters whose value is the truncated thousandths value. -/
theorem strikeField_spec (sp : PStr) (hwf : wfStrike sp = true)
    (hip : (strikeIntPart sp).length ≤ 5) (hfr : (strikeFracPart sp).length ≤ 3) :
    (strikeField sp).length = 8 ∧ isDigits (strikeField sp) = true ∧
      digitsVal (strikeField sp) = specStrikeMilli sp := by
  rcases wfStrike_cases sp hwf with ⟨hnc, hne, hdig⟩ | ⟨a, b, hsp, hsplit, hane, hadig, hbne, hbdig⟩
  · rw [strikeIntPart_no_dot sp hnc] at hip
    have hfe := strikeFracPart_no_dot sp hnc
    rw [strikeField_no_dot sp hnc]
    refine ⟨?_, ?_, ?_⟩
    · simp only [List.length_append, length_rjust]
      have h000 : (pstr "000").length = 3 := by decide
      omega
    · rw [isDigits_append, isDigits_rjust_zero _ _ (isDigits_canonDigits sp hdig)]
      decide
    · have h1 : digitsVal (pstr "000") = 0 := by decide
      have h2 : (pstr "000").length = 3 := by decide
      have h3 : digitsVal (([] : PStr).take 3) = 0 := by decide
      have hp : (10 : Nat) ^ 3 = 1000 := by norm_num
      rw [digitsVal_append, digitsVal_rjust_zero, specStrikeMilli, hfe,
        strikeIntPart_no_dot sp hnc, canonDigits_val, h1, h2, h3]
      simp only [List.length_nil, Nat.sub_zero, hp]
      omega
  · have hc : sp.contains '.' = true :=
      contains_eq_true_of_mem sp '.' (by rw [hsp]; simp)
    rw [strikeIntPart_dot sp a b hc hsplit] at hip
    rw [strikeFracPart_dot sp a b hc hsplit] at hfr
    rw [strikeField_dot sp a b hc hsplit]
    refine ⟨?_, ?_, ?_⟩
    · simp only [List.length_append, length_rjust, length_take3_ljust3]
      omega
    · rw [isDigits_append, isDigits_rjust_zero _ _ hadig, isDigits_take3_ljust3 _ hbdig]
      rfl
    · rw [digitsVal_append, digitsVal_rjust_zero, length_take3_ljust3,
        take3_ljust3 b hfr, digitsVal_append_zeros, specStrikeMilli,
        strikeIntPart_dot sp a b hc hsplit, strikeFracPart_dot sp a b hc hsplit,
        List.take_of_length_le hfr]
      ring

/-! ### Date formatting lemmas -/

theorem daysInMonth_le (y m : Nat) : daysInMonth y m ≤ 31 := by
  unfold daysInMonth
  repeat' split
  all_goals omega

theorem length_fmtYYMMDD (dt : Date) (hv : validDate dt) : (fmtYYMMDD dt).length = 6 := by
  have hd : dt.d < 100 := by
    have h1 := daysInMonth_le dt.y dt.m
    omega
  simp only [fmtYYMMDD, List.length_append]
  rw [length_pad2 _ (by omega), length_pad2 _ (by omega), length_pad2 _ hd]

theorem length_fmtMMDDYY (dt : Date) (hv : validDate dt) : (fmtMMDDYY dt).length = 6 := by
  have hd : dt.d < 100 := by
    have h1 := daysInMonth_le dt.y dt.m
    omega
  simp only [fmtMMDDYY, List.length_append]
  rw [length_pad2 _ (by omega), length_pad2 _ hd, length_pad2 _ (by omega)]

theorem fmtYYMMDD_take2 (dt : Date) : (fmtYYMMDD dt).take 2 = pad2 (dt.y % 100) := by
  rw [fmtYYMMDD, List.append_assoc]
  exact List.take_left' (length_pad2 _ (by omega))

theorem fmtYYMMDD_drop2_take2 (dt : Date) (hv : validDate dt) :
    ((fmtYYMMDD dt).drop 2).take 2 = pad2 dt.m := by
  rw [fmtYYMMDD, List.append_assoc, List.drop_left' (length_pad2 _ (by omega))]
  exact List.take_left' (length_pad2 _ (by omega))

theorem fmtYYMMDD_drop4_take2 (dt : Date) (hv : validDate dt) :
    ((fmtYYMMDD dt).drop 4).take 2 = pad2 dt.d := by
  have hd : dt.d < 100 := by
    have h1 := daysInMonth_le dt.y dt.m
    omega
  rw [fmtYYMMDD, List.append_assoc, show (4 : Nat) = 2 + 2 from rfl, ← List.drop_drop,
    List.drop_left' (length_pad2 _ (by omega)), List.drop_left' (length_pad2 _ (by omega))]
  exact List.take_of_length_le (by rw [length_pad2 _ hd])

theorem fmtMMDDYY_take2 (dt : Date) (hv : validDate dt) :
    (fmtMMDDYY dt).take 2 = pad2 dt.m := by
  rw [fmtMMDDYY, List.append_assoc]
  exact List.take_left' (length_pad2 _ (by omega))

theorem fmtMMDDYY_drop2_take2 (dt : Date) (hv : validDate dt) :
    ((fmtMMDDYY dt).drop 2).take 2 = pad2 dt.d := by
  have hd : dt.d < 100 := by
    have h1 := daysInMonth_le dt.y dt.m
    omega
  rw [fmtMMDDYY, List.append_assoc, List.drop_left' (length_pad2 _ (by omega))]
  exact List.take_left' (length_pad2 _ hd)

theorem fmtMMDDYY_drop4_take2 (dt : Date) (hv : validDate dt) :
    ((fmtMMDDYY dt).drop 4).take 2 = pad2 (dt.y % 100) := by
  have hd : dt.d < 100 := by
    have h1 := daysInMonth_le dt.y dt.m
    omega
  rw [fmtMMDDYY, List.append_assoc, show (4 : Nat) = 2 + 2 from rfl, ← List.drop_drop,
    List.drop_left' (length_pad2 _ (by omega)), List.drop_left' (length_pad2 _ hd)]
  exact List.take_of_length_le (by rw [length_pad2 _ (by omega)])

theorem isDigits_fmtYYMMDD (dt : Date) (hv : validDate dt) :
    isDigits (fmtYYMMDD dt) = true := by
  have hd : dt.d < 100 := by
    have h1 := daysInMonth_le dt.y dt.m
    omega
  rw [fmtYYMMDD, isDigits_append, isDigits_append,
    isDigits_pad2 _ (by omega), isDigits_pad2 _ (by omega), isDigits_pad2 _ hd]
  rfl

theorem isDigits_fmtMMDDYY (dt : Date) (hv : validDate dt) :
    isDigits (fmtMMDDYY dt) = true := by
  have hd : dt.d < 100 := by
    have h1 := daysInMonth_le dt.y dt.m
    omega
  rw [fmtMMDDYY, isDigits_append, isDigits_append,
    isDigits_pad2 _ (by omega), isDigits_pad2 _ hd, isDigits_pad2 _ (by omega)]
  rfl

/-! ### Marker stripping -/

theorem stripMarker_marker (rest : PStr) : stripMarker (pstr "O:" ++ rest) = rest := by
  unfold stripMarker
  have hsw : pStartsWith (pstr "O:") (pstr "O:" ++ rest) = true := by
    unfold pStartsWith
    rw [List.take_left' (by decide)]
    exact beq_self_eq_true _
  rw [hsw]
  exact List.drop_left' (by decide)

theorem stripMarker_id (s : PStr) (h : pStartsWith (pstr "O:") s = false) :
    stripMarker s = s := by
  unfold stripMarker
  rw [h]
  rfl

/-! ### Parsing a well-formed OCC-style concatenation -/

theorem pyInt?_pad2 (n : Nat) (h : n < 100) : pyInt? (pad2 n) = some n := by
  rw [pyInt?_of_digits _ (pad2_ne_nil n h) (isDigits_pad2 n h), digitsVal_pad2 n h]

theorem parse_option_symbol_concat (century s0 U : PStr) (dt : Date) (cpc : Char) (f8 : PStr)
    (hUf : U.filter (fun c => !c.isDigit) = U)
    (hsm : stripMarker s0 = (U ++ fmtYYMMDD dt) ++ cpc :: f8)
    (hv : validDate dt)
    (hcd : isDigits century = true)
    (hyy : digitsVal century * 100 + dt.y % 100 = dt.y)
    (h8 : f8.length = 8) (h8d : isDigits f8 = true) :
    parse_option_symbol century s0
      = some ⟨U, dt, cpc.toUpper, digitsVal f8, U ++ (fmtYYMMDD dt ++ cpc :: f8)⟩ := by
  have h6 : (fmtYYMMDD dt).length = 6 := length_fmtYYMMDD dt hv
  have hlen : ((U ++ fmtYYMMDD dt) ++ cpc :: f8).length = U.length + 15 := by
    simp only [List.length_append, List.length_cons, h6, h8]
  have htake : ((U ++ fmtYYMMDD dt) ++ cpc :: f8).take U.length = U := by
    rw [List.append_assoc]
    exact List.take_left' rfl
  have hdropU : ((U ++ fmtYYMMDD dt) ++ cpc :: f8).drop U.length = fmtYYMMDD dt ++ cpc :: f8 := by
    rw [List.append_assoc]
    exact List.drop_left' rfl
  have he6 : (fmtYYMMDD dt ++ cpc :: f8).take 6 = fmtYYMMDD dt := List.take_left' h6
  have hyyv : pyInt? (century ++ (fmtYYMMDD dt).take 2) = some dt.y := by
    rw [fmtYYMMDD_take2]
    have hne : century ++ pad2 (dt.y % 100) ≠ [] := by
      intro hn
      rw [List.append_eq_nil] at hn
      exact pad2_ne_nil _ (by omega) hn.2
    rw [pyInt?_of_digits _ hne (by
      rw [isDigits_append, hcd, isDigits_pad2 _ (by omega)]
      rfl)]
    rw [digitsVal_append, length_pad2 _ (by omega), digitsVal_pad2 _ (by omega)]
    rw [show (10 : Nat) ^ 2 = 100 from rfl, hyy]
  have hmmv : pyInt? (((fmtYYMMDD dt).drop 2).take 2) = some dt.m := by
    rw [fmtYYMMDD_drop2_take2 dt hv]
    exact pyInt?_pad2 _ (by omega)
  have hddv : pyInt? (((fmtYYMMDD dt).drop 4).take 2) = some dt.d := by
    rw [fmtYYMMDD_drop4_take2 dt hv]
    have hd : dt.d < 100 := by
      have h1 := daysInMonth_le dt.y dt.m
      omega
    exact pyInt?_pad2 _ hd
  have hdate : mkDate? dt.y dt.m dt.d = some dt := by
    unfold mkDate?
    rw [if_pos hv]
  have hcp : (((U ++ fmtYYMMDD dt) ++ cpc :: f8).drop (U.length + 6)).head? = some cpc := by
    rw [List.drop_left' (by simp only [List.length_append, h6])]
    rfl
  have hmil : ((U ++ fmtYYMMDD dt) ++ cpc :: f8).drop (U.length + 7) = f8 := by
    have hsplit : (U ++ fmtYYMMDD dt) ++ cpc :: f8 = ((U ++ fmtYYMMDD dt) ++ [cpc]) ++ f8 := by
      simp
    rw [hsplit]
    exact List.drop_left' (by
      simp only [List.length_append, h6, List.length_cons, List.length_nil])
  have hf8 : pyInt? f8 = some (digitsVal f8) := by
    refine pyInt?_of_digits f8 ?_ h8d
    intro hn
    rw [hn] at h8
    exact absurd h8 (by decide)
  simp only [parse_option_symbol, hsm, hlen, Nat.add_sub_cancel, htake, hUf, hdropU, he6,
    hyyv, hmmv, hddv, hdate, hcp, hmil, hf8, Option.bind_eq_bind, Option.some_bind]

/-! ### Helpers for the round-trip theorems -/

theorem toUpper_buildTypeChar (cp : PStr) :
    (buildTypeChar cp).toUpper = buildTypeChar cp := by
  unfold buildTypeChar
  split
  · decide
  · decide

theorem pStartsWith_marker_false (U rest : PStr) (hU : U ≠ [])
    (hcol : ∀ c ∈ U, c ≠ ':') (c1 : Char) (r : PStr) (hr : rest = c1 :: r)
    (hc1 : c1 ≠ ':') :
    pStartsWith (pstr "O:") (U ++ rest) = false := by
  subst hr
  unfold pStartsWith
  rw [beq_eq_false_iff_ne]
  intro h
  cases U with
  | nil => exact hU rfl
  | cons u0 utl =>
    cases utl with
    | nil =>
      have h2 : [u0, c1] = ['O', ':'] := h
      have h3 := List.tail_eq_of_cons_eq h2
      exact hc1 (List.head_eq_of_cons_eq h3)
    | cons u1 utl2 =>
      have h2 : [u0, u1] = ['O', ':'] := h
      have h3 := List.tail_eq_of_cons_eq h2
      exact hcol u1 (by simp) (List.head_eq_of_cons_eq h3)

theorem pUpper_ne_nil (U : PStr) (hU : U ≠ []) : pUpper U ≠ [] := by
  intro h
  exact hU (List.map_eq_nil_iff.1 h)

/-- C1: round-trip of the OCC-style codec.  For a nonempty underlying whose
uppercase form has no digits and no colon, a valid expiry date in the
2000-2099 window (the century `parse` reconstructs from today's date), and a
well-formed rendered strike with at most 5 integer digits and at most 3
fractional digits, parsing the built symbol returns the uppercased
underlying, the same expiry date, the encoded option type, and the strike at
3-decimal precision. -/
theorem C1_occ_roundtrip (U : PStr) (dt : Date) (cp sp : PStr) (prefix_o : Bool)
    (hU : U ≠ [])
    (hUc : ∀ c ∈ pUpper U, c.isDigit = false ∧ c ≠ ':')
    (hv : validDate dt) (hy : 2000 ≤ dt.y ∧ dt.y < 2100)
    (hwf : wfStrike sp = true) (hip : (strikeIntPart sp).length ≤ 5)
    (hfr : (strikeFracPart sp).length ≤ 3) :
    ∃ out r,
      build_option_symbol U (.date dt) cp sp prefix_o = .ok out ∧
      parse_option_symbol (pstr "20") out = some r ∧
      r.underlying_symbol = pUpper U ∧
      r.expiry = dt ∧
      r.call_or_put = buildTypeChar cp ∧
      r.strike_milli = specStrikeMilli sp := by
  obtain ⟨hsf_len, hsf_dig, hsf_val⟩ := strikeField_spec sp hwf hip hfr
  have hUne : pUpper U ≠ [] := pUpper_ne_nil U hU
  have hUf : (pUpper U).filter (fun c => !c.isDigit) = pUpper U :=
    List.filter_eq_self.mpr (fun c hc => by rw [(hUc c hc).1]; rfl)
  have hyy20 : digitsVal (pstr "20") * 100 + dt.y % 100 = dt.y := by
    have h20 : digitsVal (pstr "20") = 20 := by decide
    rw [h20]
    omega
  have hcd20 : isDigits (pstr "20") = true := by decide
  cases prefix_o with
  | true =>
    have hsm : stripMarker ((pstr "O:" ++ pUpper U ++ fmtYYMMDD dt) ++
        buildTypeChar cp :: strikeField sp)
        = (pUpper U ++ fmtYYMMDD dt) ++ buildTypeChar cp :: strikeField sp := by
      rw [show (pstr "O:" ++ pUpper U ++ fmtYYMMDD dt) ++ buildTypeChar cp :: strikeField sp
          = pstr "O:" ++ ((pUpper U ++ fmtYYMMDD dt) ++ buildTypeChar cp :: strikeField sp) by
        simp [List.append_assoc]]
      exact stripMarker_marker _
    have hparse := parse_option_symbol_concat (pstr "20") _ (pUpper U) dt
      (buildTypeChar cp) (strikeField sp) hUf hsm hv hcd20 hyy20 hsf_len hsf_dig
    exact ⟨_, _, rfl, hparse, rfl, rfl, toUpper_buildTypeChar cp, hsf_val⟩
  | false =>
    have hfmt6 := length_fmtYYMMDD dt hv
    obtain ⟨c1, ftl, hfc⟩ : ∃ c1 ftl, fmtYYMMDD dt = c1 :: ftl := by
      cases hq : fmtYYMMDD dt with
      | nil =>
        rw [hq] at hfmt6
        exact absurd hfmt6 (by decide)
      | cons a b => exact ⟨a, b, rfl⟩
    have hc1d : c1.isDigit = true := by
      have hdig := isDigits_fmtYYMMDD dt hv
      rw [hfc] at hdig
      exact List.all_eq_true.1 hdig c1 (by simp)
    have hc1 : c1 ≠ ':' := by
      intro hq
      rw [hq] at hc1d
      exact absurd hc1d (by decide)
    have hsw : pStartsWith (pstr "O:")
        ((pUpper U ++ fmtYYMMDD dt) ++ buildTypeChar cp :: strikeField sp) = false := by
      rw [List.append_assoc]
      exact pStartsWith_marker_false (pUpper U) _ hUne (fun c hc => (hUc c hc).2)
        c1 (ftl ++ buildTypeChar cp :: strikeField sp) (by rw [hfc]; rfl) hc1
    have hsm : stripMarker ((pUpper U ++ fmtYYMMDD dt) ++ buildTypeChar cp :: strikeField sp)
        = (pUpper U ++ fmtYYMMDD dt) ++ buildTypeChar cp :: strikeField sp :=
      stripMarker_id _ hsw
    have hparse := parse_option_symbol_concat (pstr "20") _ (pUpper U) dt
      (buildTypeChar cp) (strikeField sp) hUf hsm hv hcd20 hyy20 hsf_len hsf_dig
    exact ⟨_, _, rfl, hparse, rfl, rfl, toUpper_buildTypeChar cp, hsf_val⟩

/-- Witness for C1 at `("tsla", 2021-10-15, "put", "125.0", prefix_o = true)`. -/
theorem C1_occ_roundtrip_witness :
    ∃ out r,
      build_option_symbol (pstr "tsla") (.date ⟨2021, 10, 15⟩) (pstr "put") (pstr "125.0") true
        = .ok out ∧
      parse_option_symbol (pstr "20") out = some r ∧
      r.underlying_symbol = pUpper (pstr "tsla") ∧
      r.expiry = ⟨2021, 10, 15⟩ ∧
      r.call_or_put = buildTypeChar (pstr "put") ∧
      r.strike_milli = specStrikeMilli (pstr "125.0") :=
  C1_occ_roundtrip (pstr "tsla") ⟨2021, 10, 15⟩ (pstr "put") (pstr "125.0") true
    (by decide) (by decide) (by decide) (by decide) (by decide) (by decide) (by decide)

/-! ### C2: no minimum-length check in parsing -/

theorem option_bind_shape {α β : Type} (x : Option α) (f : α → Option β)
    (P : Option β → Prop) (hnone : P none) (hsome : ∀ a, P (f a)) :
    P (x.bind f) := by
  cases x with
  | none => exact hnone
  | some a => exact hsome a

/-- C2 counterexample: the 10-character symbol `"210115C125"` does not fail at
all; `OptionSymbol.__init__` parses it successfully with an empty underlying
(`s[:-15]` is empty), expiry 2021-01-15, type `'C'` and strike `0.125`
(`strike_milli = 125`).  No `SymbolTooShortError` exists in the code. -/
theorem C2_short_symbol_parses :
    parse_option_symbol (pstr "20") (pstr "210115C125")
      = some ⟨[], ⟨2021, 1, 15⟩, 'C', 125, pstr "210115C125"⟩ := by decide

/-- C2 amended: `parse_option_symbol` performs no length validation.  When the
marker-stripped symbol is shorter than 15 characters the underlying is empty
and parsing either fails with a generic field error (`int()` / `date()`), or
even succeeds when the leading characters happen to form valid fields. -/
theorem C2_amended_no_length_check (s : PStr) (h : (stripMarker s).length < 15) :
    parse_option_symbol (pstr "20") s = none ∨
    ∃ dtv cpv mv, parse_option_symbol (pstr "20") s
      = some ⟨[], dtv, cpv, mv, stripMarker s⟩ := by
  have h0 : (stripMarker s).length - 15 = 0 := by omega
  simp only [parse_option_symbol, h0, List.take_zero, List.filter_nil, List.length_nil,
    List.drop_zero, Nat.zero_add, List.nil_append, Option.bind_eq_bind]
  cases pyInt? (pstr "20" ++ List.take 2 (List.take 6 (stripMarker s))) with
  | none => exact Or.inl rfl
  | some yy =>
    simp only [Option.some_bind]
    cases pyInt? (List.take 2 (List.drop 2 (List.take 6 (stripMarker s)))) with
    | none => exact Or.inl rfl
    | some mm =>
      simp only [Option.some_bind]
      cases pyInt? (List.take 2 (List.drop 4 (List.take 6 (stripMarker s)))) with
      | none => exact Or.inl rfl
      | some dd =>
        simp only [Option.some_bind]
        cases mkDate? yy mm dd with
        | none => exact Or.inl rfl
        | some dtv =>
          simp only [Option.some_bind]
          cases (List.drop 6 (stripMarker s)).head? with
          | none => exact Or.inl rfl
          | some cpv =>
            simp only [Option.some_bind]
            cases pyInt? (List.drop 7 (stripMarker s)) with
            | none => exact Or.inl rfl
            | some mv => exact Or.inr ⟨dtv, cpv.toUpper, mv, rfl⟩

/-- Witness for the amended C2 at the length-10 input `"210115C125"`. -/
theorem C2_amended_no_length_check_witness :
    parse_option_symbol (pstr "20") (pstr "210115C125") = none ∨
    ∃ dtv cpv mv, parse_option_symbol (pstr "20") (pstr "210115C125")
      = some ⟨[], dtv, cpv, mv, stripMarker (pstr "210115C125")⟩ :=
  C2_amended_no_length_check (pstr "210115C125") (by decide)

/-! ### C4: the strike field -/

/-- C4 counterexample: for the strike input `123456` (rendered `"123456"`),
`rjust(5, '0')` does not truncate, so the strike field has 9 digits, not 8.
-/
theorem C4_long_strike_field :
    (strikeField (pstr "123456")).length = 9 ∧ (strikeField (pstr "123456")).length ≠ 8 := by
  decide

/-- C4 amended: for every well-formed strike whose integer part renders in at
most 5 digits, the field is the 5-digit left-zero-padded integer part
followed by the right-zero-padded-or-truncated (never rounded) 3-digit
fractional part, 8 digits in all; a longer integer part is kept whole, which
makes the field longer than 8.  The concrete examples hold. -/
theorem C4_amended_strike_encoding (sp : PStr) (hwf : wfStrike sp = true)
    (hip : (strikeIntPart sp).length ≤ 5) :
    strikeField sp = rjust (strikeIntPart sp) 5 '0' ++ (ljust (strikeFracPart sp) 3 '0').take 3 ∧
    (rjust (strikeIntPart sp) 5 '0').length = 5 ∧
    ((ljust (strikeFracPart sp) 3 '0').take 3).length = 3 ∧
    (strikeField sp).length = 8 ∧
    (3 ≤ (strikeFracPart sp).length →
      (ljust (strikeFracPart sp) 3 '0').take 3 = (strikeFracPart sp).take 3) ∧
    strikeField (pstr "145") = pstr "00145000" ∧
    strikeField (pstr "15.0034") = pstr "00015003" := by
  have hfield : strikeField sp
      = rjust (strikeIntPart sp) 5 '0' ++ (ljust (strikeFracPart sp) 3 '0').take 3 := by
    rcases wfStrike_cases sp hwf with ⟨hnc, _, _⟩ | ⟨a, b, hsp, hsplit, _, _, _, _⟩
    · rw [strikeField_no_dot sp hnc, strikeIntPart_no_dot sp hnc, strikeFracPart_no_dot sp hnc]
      rfl
    · have hc : sp.contains '.' = true :=
        contains_eq_true_of_mem sp '.' (by rw [hsp]; simp)
      rw [strikeField_dot sp a b hc hsplit, strikeIntPart_dot sp a b hc hsplit,
        strikeFracPart_dot sp a b hc hsplit]
  have hiplen : (rjust (strikeIntPart sp) 5 '0').length = 5 := by
    rw [length_rjust]
    omega
  refine ⟨hfield, hiplen, length_take3_ljust3 _, ?_, ?_, by decide, by decide⟩
  · rw [hfield, List.length_append, hiplen, length_take3_ljust3]
  · intro h3
    rw [ljust, show 3 - (strikeFracPart sp).length = 0 from by omega]
    rw [List.replicate_zero, List.append_nil]

/-- Witness for the amended C4 at the strike input `15.0034`. -/
theorem C4_amended_strike_encoding_witness :
    strikeField (pstr "15.0034") = rjust (strikeIntPart (pstr "15.0034")) 5 '0'
        ++ (ljust (strikeFracPart (pstr "15.0034")) 3 '0').take 3 ∧
    (rjust (strikeIntPart (pstr "15.0034")) 5 '0').length = 5 ∧
    ((ljust (strikeFracPart (pstr "15.0034")) 3 '0').take 3).length = 3 ∧
    (strikeField (pstr "15.0034")).length = 8 ∧
    (3 ≤ (strikeFracPart (pstr "15.0034")).length →
      (ljust (strikeFracPart (pstr "15.0034")) 3 '0').take 3
        = (strikeFracPart (pstr "15.0034")).take 3) ∧
    strikeField (pstr "145") = pstr "00145000" ∧
    strikeField (pstr "15.0034") = pstr "00015003" :=
  C4_amended_strike_encoding (pstr "15.0034") (by decide) (by decide)

/-! ### C5: concrete build cases -/

/-- C5: the two concrete build cases from the spec, exactly as stated
(`125.0` is the Python float, rendered `"125.0"`; `700` the int, rendered
`"700"`). -/
theorem C5_concrete_builds :
    build_option_symbol (pstr "TSLA") (.date ⟨2021, 10, 15⟩) (pstr "put") (pstr "125.0") true
      = .ok (pstr "O:TSLA211015P00125000") ∧
    build_option_symbol (pstr "FB") (.str (pstr "210903")) (pstr "c") (pstr "700") false
      = .ok (pstr "FB210903C00700000") := by
  decide

/-! ### C6: format detection -/

/-- C6: `detect_symbol_format` classifies a leading-dot or
underscore-containing symbol as `tda` (with the sub-variant chosen by the
TDA parser being `dot` exactly for a leading dot), otherwise a marker-prefixed
or longer-than-15 symbol as `polygon`, and everything else as unrecognized
(`False` in the source); with the spec's two concrete cases. -/
theorem C6_format_detection :
    (∀ s : PStr, detect_symbol_format s = .tda
      ↔ (pStartsWith (pstr ".") s = true ∨ s.contains '_' = true)) ∧
    (∀ s : PStr, ¬(pStartsWith (pstr ".") s = true ∨ s.contains '_' = true) →
      (detect_symbol_format s = .polygon
        ↔ (pStartsWith (pstr "O:") s = true ∨ s.length > 15))) ∧
    (∀ s : PStr, ¬(pStartsWith (pstr ".") s = true ∨ s.contains '_' = true) →
      ¬(pStartsWith (pstr "O:") s = true ∨ s.length > 15) →
      detect_symbol_format s = .unrecognized) ∧
    detect_symbol_format (pstr ".TSLA210903C700") = .tda ∧
    tdaVariantOf (pstr ".TSLA210903C700") = pstr "dot" ∧
    detect_symbol_format (pstr "O:TSLA211015P00125000") = .polygon := by
  refine ⟨fun s => ?_, fun s h1 => ?_, fun s h1 h2 => ?_, by decide, by decide, by decide⟩
  · unfold detect_symbol_format
    by_cases h : pStartsWith (pstr ".") s = true ∨ s.contains '_' = true
    · rw [if_pos (by simpa [Bool.or_eq_true] using h)]
      exact iff_of_true rfl h
    · rw [if_neg (by simpa [Bool.or_eq_true] using h)]
      refine iff_of_false ?_ h
      split
      · decide
      · decide
  · unfold detect_symbol_format
    rw [if_neg (by simpa [Bool.or_eq_true] using h1)]
    by_cases h2 : pStartsWith (pstr "O:") s = true ∨ s.length > 15
    · rw [if_pos (by
        rw [Bool.or_eq_true]
        rcases h2 with h2 | h2
        · exact Or.inl h2
        · exact Or.inr (by simpa using h2))]
      exact iff_of_true rfl h2
    · rw [if_neg (by
        rw [Bool.or_eq_true]
        rintro (hq | hq)
        · exact h2 (Or.inl hq)
        · exact h2 (Or.inr (by simpa using hq)))]
      exact iff_of_false (by decide) h2
  · unfold detect_symbol_format
    rw [if_neg (by simpa [Bool.or_eq_true] using h1), if_neg (by
      rw [Bool.or_eq_true]
      rintro (hq | hq)
      · exact h2 (Or.inl hq)
      · exact h2 (Or.inr (by simpa using hq)))]

/-- Witness for C6: a symbol with an underscore is classified `tda`, applying
the first component at a concrete input. -/
theorem C6_format_detection_witness :
    detect_symbol_format (pstr "AB_C") = SymbolFormat.tda :=
  (C6_format_detection.1 (pstr "AB_C")).mpr (by decide)

/-! ### C7: option-type handling -/

/-- C7: both builders emit `'C'` exactly when the lowercased type is `c` or
`call` and `'P'` otherwise (a typo like `"cal"` silently becomes a put), and
no input ever raises: with a date expiry both builders always succeed. -/
theorem C7_option_type_default_put :
    (∀ cp : PStr, buildTypeChar cp = 'C'
      ↔ (pLower cp = pstr "c" ∨ pLower cp = pstr "call")) ∧
    (∀ cp : PStr, ¬(pLower cp = pstr "c" ∨ pLower cp = pstr "call") →
      buildTypeChar cp = 'P') ∧
    buildTypeChar (pstr "cal") = 'P' ∧
    (∀ (u : PStr) (dt : Date) (cp sp : PStr) (pre : Bool),
      build_option_symbol u (.date dt) cp sp pre
        = .ok ((if pre then pstr "O:" else []) ++ pUpper u ++ fmtYYMMDD dt
            ++ buildTypeChar cp :: strikeField sp)) ∧
    (∀ (u : PStr) (dt : Date) (cp : PStr) (sp : TdaStrike) (fv : PStr),
      build_option_symbol_for_tda u (.date dt) cp sp fv
        = if fv == pstr "dot"
          then '.' :: (u ++ fmtMMDDYY dt ++ buildTypeChar cp :: tdaStrikeRender (tdaStrikeNormalize sp))
          else u ++ '_' :: (fmtMMDDYY dt ++ buildTypeChar cp :: tdaStrikeRender (tdaStrikeNormalize sp))) := by
  refine ⟨fun cp => ?_, fun cp h => ?_, by decide, fun u dt cp sp pre => rfl,
    fun u dt cp sp fv => rfl⟩
  · unfold buildTypeChar
    by_cases h : pLower cp = pstr "c" ∨ pLower cp = pstr "call"
    · rw [if_pos (by simpa [Bool.or_eq_true, beq_iff_eq] using h)]
      exact iff_of_true rfl h
    · rw [if_neg (by simpa [Bool.or_eq_true, beq_iff_eq] using h)]
      exact iff_of_false (by decide) h
  · unfold buildTypeChar
    rw [if_neg (by simpa [Bool.or_eq_true, beq_iff_eq] using h)]

/-- Witness for C7: the typo `"cal"` is not recognized as a call and becomes a
put, applying the default-to-put component at a concrete input. -/
theorem C7_option_type_default_put_witness :
    buildTypeChar (pstr "x") = 'P' :=
  C7_option_type_default_put.2.1 (pstr "x") (by decide)

/-! ### C8: expiry validation in the OCC-style builder -/

/-- C8: a date expiry is always accepted and formatted `YYMMDD`; a string
expiry is accepted as-is (no content check) exactly when it has 6 characters,
and any other length raises (`ValueError`, the spec's
`MalformedExpiryError`). -/
theorem C8_expiry_validation :
    (∀ (u cp sp : PStr) (pre : Bool) (s : PStr),
      (∃ e, build_option_symbol u (.str s) cp sp pre = .error e) ↔ s.length ≠ 6) ∧
    (∀ (u cp sp : PStr) (pre : Bool) (s : PStr), s.length = 6 →
      build_option_symbol u (.str s) cp sp pre
        = .ok ((if pre then pstr "O:" else []) ++ pUpper u ++ s
            ++ buildTypeChar cp :: strikeField sp)) ∧
    (∀ (u cp sp : PStr) (pre : Bool) (dt : Date),
      build_option_symbol u (.date dt) cp sp pre
        = .ok ((if pre then pstr "O:" else []) ++ pUpper u ++ fmtYYMMDD dt
            ++ buildTypeChar cp :: strikeField sp)) := by
  refine ⟨fun u cp sp pre s => ?_, fun u cp sp pre s h => ?_, fun u cp sp pre dt => rfl⟩
  · by_cases h : s.length = 6
    · have hred : build_option_symbol u (.str s) cp sp pre
          = .ok ((if pre then pstr "O:" else []) ++ pUpper u ++ s
              ++ buildTypeChar cp :: strikeField sp) := by
        simp only [build_option_symbol]
        rw [if_neg (show ¬(s.length ≠ 6) from fun hq => hq h)]
      rw [hred]
      refine iff_of_false ?_ (fun hq => hq h)
      rintro ⟨e, he⟩
      exact Except.noConfusion he
    · have hred : build_option_symbol u (.str s) cp sp pre
          = .error (pstr "Expiry string must have 6 characters. Format is: YYMMDD") := by
        simp only [build_option_symbol]
        rw [if_pos h]
      rw [hred]
      exact iff_of_true ⟨_, rfl⟩ h
  · simp only [build_option_symbol]
    rw [if_neg (show ¬(s.length ≠ 6) from fun hq => hq h)]

/-- Witness for C8: the 6-character non-digit string `"ABCDEF"` is accepted
as-is, applying the acceptance component at a concrete input. -/
theorem C8_expiry_validation_witness :
    build_option_symbol (pstr "FB") (.str (pstr "ABCDEF")) (pstr "c") (pstr "700") false
      = .ok ((if false then pstr "O:" else []) ++ pUpper (pstr "FB") ++ pstr "ABCDEF"
          ++ buildTypeChar (pstr "c") :: strikeField (pstr "700")) :=
  C8_expiry_validation.2.1 (pstr "FB") (pstr "c") (pstr "700") false (pstr "ABCDEF") (by decide)

/-! ### C10: the endpoint prefix helper -/

theorem charOfNat_toNat_upper : ∀ k, k < 91 → 65 ≤ k → (Char.ofNat k).toNat = k := by
  decide

theorem toUpper_toUpper (c : Char) : c.toUpper.toUpper = c.toUpper := by
  by_cases h : c.toNat ≥ 97 ∧ c.toNat ≤ 122
  · have h1 : c.toUpper = Char.ofNat (c.toNat - 32) := by
      show (if c.toNat ≥ 97 ∧ c.toNat ≤ 122 then Char.ofNat (c.toNat - 32) else c)
        = Char.ofNat (c.toNat - 32)
      rw [if_pos h]
    have htm : (Char.ofNat (c.toNat - 32)).toNat = c.toNat - 32 :=
      charOfNat_toNat_upper _ (by omega) (by omega)
    rw [h1]
    show (if (Char.ofNat (c.toNat - 32)).toNat ≥ 97 ∧ (Char.ofNat (c.toNat - 32)).toNat ≤ 122
      then Char.ofNat ((Char.ofNat (c.toNat - 32)).toNat - 32)
      else Char.ofNat (c.toNat - 32)) = Char.ofNat (c.toNat - 32)
    rw [htm, if_neg (by omega)]
  · have h1 : c.toUpper = c := by
      show (if c.toNat ≥ 97 ∧ c.toNat ≤ 122 then Char.ofNat (c.toNat - 32) else c) = c
      rw [if_neg h]
    rw [h1]
    exact h1

theorem pUpper_pUpper (s : PStr) : pUpper (pUpper s) = pUpper s := by
  induction s with
  | nil => rfl
  | cons c t ih =>
    show Char.toUpper (Char.toUpper c) :: pUpper (pUpper t) = Char.toUpper c :: pUpper t
    rw [toUpper_toUpper, ih]

theorem length_pUpper (s : PStr) : (pUpper s).length = s.length := List.length_map s _

theorem pStartsWith_marker (x : PStr) : pStartsWith (pstr "O:") (pstr "O:" ++ x) = true := by
  unfold pStartsWith
  rw [List.take_left' (by decide)]
  exact beq_self_eq_true _

theorem pUpper_marker_append (x : PStr) :
    pUpper (pstr "O:" ++ x) = pstr "O:" ++ pUpper x := rfl

/-- C10: `ensure_prefix` raises exactly on symbols shorter than 15 characters;
otherwise it returns the uppercased symbol, prefixed with `O:` when its
uppercase form does not already start with `O:`.  Consequently every
successful result starts with `O:`, is toUpper-fixed, and re-applying
`ensure_prefix` to it is the identity (idempotence). -/
theorem C10_ensure_prefix_spec :
    ∀ s : PStr,
      ((∃ e, ensure_prefix s = .error e) ↔ s.length < 15) ∧
      (15 ≤ s.length → pStartsWith (pstr "O:") (pUpper s) = true →
        ensure_prefix s = .ok (pUpper s)) ∧
      (15 ≤ s.length → pStartsWith (pstr "O:") (pUpper s) = false →
        ensure_prefix s = .ok (pstr "O:" ++ pUpper s)) ∧
      (∀ r, ensure_prefix s = .ok r →
        ensure_prefix r = .ok r ∧ pStartsWith (pstr "O:") r = true ∧ pUpper r = r) := by
  intro s
  refine ⟨?_, fun hlen hsw => ?_, fun hlen hsw => ?_, fun r hr => ?_⟩
  · by_cases h : s.length < 15
    · have hred : ensure_prefix s
          = .error (pstr "Option symbol length must at least be 15 letters.") := by
        unfold ensure_prefix
        rw [if_pos h]
      rw [hred]
      exact iff_of_true ⟨_, rfl⟩ h
    · have hred : ensure_prefix s
          = if pStartsWith (pstr "O:") (pUpper s) = true then Except.ok (pUpper s)
            else Except.ok (pstr "O:" ++ pUpper s) := by
        unfold ensure_prefix
        rw [if_neg h]
      rw [hred]
      refine iff_of_false ?_ h
      rintro ⟨e, he⟩
      by_cases hq : pStartsWith (pstr "O:") (pUpper s) = true
      · rw [if_pos hq] at he
        exact Except.noConfusion he
      · rw [if_neg hq] at he
        exact Except.noConfusion he
  · unfold ensure_prefix
    rw [if_neg (by omega), if_pos hsw]
  · unfold ensure_prefix
    rw [if_neg (by omega), if_neg (by rw [hsw]; exact Bool.false_ne_true)]
  · by_cases h : s.length < 15
    · exfalso
      have hred : ensure_prefix s
          = .error (pstr "Option symbol length must at least be 15 letters.") := by
        unfold ensure_prefix
        rw [if_pos h]
      rw [hred] at hr
      exact Except.noConfusion hr
    · by_cases hq : pStartsWith (pstr "O:") (pUpper s) = true
      · have hred : ensure_prefix s = .ok (pUpper s) := by
          unfold ensure_prefix
          rw [if_neg h, if_pos hq]
        rw [hred] at hr
        injection hr with hru
        subst hru
        refine ⟨?_, hq, pUpper_pUpper s⟩
        unfold ensure_prefix
        rw [if_neg (by rw [length_pUpper]; omega)]
        rw [pUpper_pUpper, if_pos hq]
      · have hred : ensure_prefix s = .ok (pstr "O:" ++ pUpper s) := by
          unfold ensure_prefix
          rw [if_neg h, if_neg hq]
        rw [hred] at hr
        injection hr with hru
        subst hru
        have hur : pUpper (pstr "O:" ++ pUpper s) = pstr "O:" ++ pUpper s := by
          rw [pUpper_marker_append, pUpper_pUpper]
        refine ⟨?_, pStartsWith_marker _, hur⟩
        unfold ensure_prefix
        rw [if_neg (by
          simp only [List.length_append, length_pUpper]
          have h2 : (pstr "O:").length = 2 := by decide
          omega)]
        rw [hur, if_pos (pStartsWith_marker _)]

/-- Witness for C10 at a concrete 19-character unprefixed lowercase symbol. -/
theorem C10_ensure_prefix_spec_witness :
    ensure_prefix (pstr "tsla211015p00125000")
      = .ok (pstr "O:" ++ pUpper (pstr "tsla211015p00125000")) :=
  (C10_ensure_prefix_spec (pstr "tsla211015p00125000")).2.2.1 (by decide) (by decide)

/-! ### C3: the TDA codec -/

/-- C3 counterexample: for the well-formed dot symbol `".TSLA211015C125"`
(underlying TSLA, the decoder's `YYMMDD` date reading: 2021-10-15, call,
strike 125), re-encoding the parsed fields in the dot variant yields
`".TSLA101521C125"` — the builder writes the date as `MMDDYY` while the
decoder reads `YYMMDD`, so the round trip fails. -/
theorem C3_dot_roundtrip_fails :
    ∃ r, parse_option_symbol_from_tda (pstr "20") (pstr ".TSLA211015C125") = some r ∧
      build_option_symbol_for_tda r.underlying_symbol (.date r.expiry) [r.call_or_put]
        r.strike (pstr "dot") = pstr ".TSLA101521C125" ∧
      build_option_symbol_for_tda r.underlying_symbol (.date r.expiry) [r.call_or_put]
        r.strike (pstr "dot") ≠ pstr ".TSLA211015C125" := by
  refine ⟨⟨pstr "TSLA", ⟨2021, 10, 15⟩, 'C', .int 125, pstr "TSLA_101521C125"⟩,
    by decide, by decide, by decide⟩

theorem digit_ne_underscore (c : Char) (h : c.isDigit = true) : c ≠ '_' := by
  intro hq
  rw [hq] at h
  exact absurd h (by decide)

theorem pyFloatStrike?_chars (ss : PStr) (k : TdaStrike) (h : pyFloatStrike? ss = some k) :
    ∀ c ∈ ss, c.isDigit = true ∨ c = '.' := by
  unfold pyFloatStrike? at h
  by_cases hsafe : floatReprSafe ss = true
  case neg =>
    rw [if_neg hsafe] at h
    exact Option.noConfusion h
  rw [if_pos hsafe] at h
  by_cases hc : ss.contains '.' = true
  · rw [if_pos hc] at h
    by_cases hcond : (((pySplit '.' ss).length == 2)
        && isDigits ((pySplit '.' ss).headD [])
        && isDigits (((pySplit '.' ss).drop 1).headD [])
        && !(((pySplit '.' ss).headD []).isEmpty && (((pySplit '.' ss).drop 1).headD []).isEmpty))
        = true
    · obtain ⟨a, b, hab⟩ : ∃ a b, pySplit '.' ss = [a, b] := by
        have hlen : (pySplit '.' ss).length = 2 := by
          have h2 := hcond
          simp only [Bool.and_eq_true, beq_iff_eq] at h2
          exact h2.1.1.1
        cases hq : pySplit '.' ss with
        | nil =>
          rw [hq] at hlen
          simp only [List.length_nil] at hlen
          omega
        | cons p ptl =>
          cases ptl with
          | nil =>
            rw [hq] at hlen
            simp only [List.length_cons, List.length_nil] at hlen
            omega
          | cons q qtl =>
            cases qtl with
            | nil => exact ⟨p, q, rfl⟩
            | cons r rtl =>
              rw [hq] at hlen
              simp only [List.length_cons] at hlen
              omega
      obtain ⟨hss, hfa, hfb⟩ := pySplit_eq_pair_inv '.' ss a b hab
      have hda : isDigits a = true := by
        have h2 := hcond
        simp only [Bool.and_eq_true, beq_iff_eq] at h2
        rw [hab] at h2
        exact h2.1.1.2
      have hdb : isDigits b = true := by
        have h2 := hcond
        simp only [Bool.and_eq_true, beq_iff_eq] at h2
        rw [hab] at h2
        exact h2.1.2
      intro c hcm
      rw [hss] at hcm
      rcases List.mem_append.1 hcm with hm | hm
      · exact Or.inl (List.all_eq_true.1 hda c hm)
      · rcases List.mem_cons.1 hm with hm | hm
        · exact Or.inr hm
        · exact Or.inl (List.all_eq_true.1 hdb c hm)
    · rw [if_neg hcond] at h
      exact Option.noConfusion h
  · rw [if_neg hc] at h
    by_cases hd : (!ss.isEmpty && isDigits ss) = true
    · have hdig : isDigits ss = true := by
        simp only [Bool.and_eq_true] at hd
        exact hd.2
      exact fun c hm => Or.inl (List.all_eq_true.1 hdig c hm)
    · rw [if_neg hd] at h
      exact Option.noConfusion h

theorem pyFloatStrike?_no_underscore (ss : PStr) (k : TdaStrike)
    (h : pyFloatStrike? ss = some k) : '_' ∉ ss := by
  intro hm
  rcases pyFloatStrike?_chars ss k h '_' hm with hq | hq
  · exact absurd hq (by decide)
  · exact absurd hq (by decide)

/-- Parsing a well-formed underscore-variant TDA symbol. -/
theorem parseTda_underscore_concat (U : PStr) (dt : Date) (cpc : Char) (ss : PStr)
    (k : TdaStrike)
    (hU : '_' ∉ U)
    (hv : validDate dt) (hy : 2000 ≤ dt.y ∧ dt.y < 2100)
    (hcp : cpc ≠ '_')
    (hk : pyFloatStrike? ss = some k) :
    parseTdaSymbol (pstr "20") (U ++ '_' :: (fmtMMDDYY dt ++ cpc :: ss)) (pstr "underscore")
      = some ⟨U, dt, cpc, k, U ++ '_' :: (fmtMMDDYY dt ++ cpc :: ss)⟩ := by
  have h6 : (fmtMMDDYY dt).length = 6 := length_fmtMMDDYY dt hv
  have hssu : '_' ∉ ss := pyFloatStrike?_no_underscore ss k hk
  have hrest : ∀ c ∈ fmtMMDDYY dt ++ cpc :: ss, c ≠ '_' := by
    intro c hm
    rcases List.mem_append.1 hm with hm | hm
    · exact digit_ne_underscore c (List.all_eq_true.1 (isDigits_fmtMMDDYY dt hv) c hm)
    · rcases List.mem_cons.1 hm with hm | hm
      · rw [hm]; exact hcp
      · exact fun hq => hssu (hq ▸ hm)
  have hsplit : pySplit '_' (U ++ '_' :: (fmtMMDDYY dt ++ cpc :: ss))
      = [U, fmtMMDDYY dt ++ cpc :: ss] :=
    pySplit_pair '_' U _ (fun c hc hce => hU (hce ▸ hc)) hrest
  have hidx : ([U, fmtMMDDYY dt ++ cpc :: ss] : List PStr)[1]? = some (fmtMMDDYY dt ++ cpc :: ss) := rfl
  have he6 : (fmtMMDDYY dt ++ cpc :: ss).take 6 = fmtMMDDYY dt := List.take_left' h6
  have hyyv : pyInt? (pstr "20" ++ ((fmtMMDDYY dt).drop 4).take 2) = some dt.y := by
    rw [fmtMMDDYY_drop4_take2 dt hv]
    have hne : pstr "20" ++ pad2 (dt.y % 100) ≠ [] := by
      intro hn
      rw [List.append_eq_nil] at hn
      exact pad2_ne_nil _ (by omega) hn.2
    rw [pyInt?_of_digits _ hne (by
      rw [isDigits_append, isDigits_pad2 _ (by omega)]
      decide)]
    rw [digitsVal_append, length_pad2 _ (by omega), digitsVal_pad2 _ (by omega)]
    have h20 : digitsVal (pstr "20") = 20 := by decide
    rw [h20]
    have : 20 * 10 ^ 2 + dt.y % 100 = dt.y := by omega
    rw [this]
  have hmmv : pyInt? ((fmtMMDDYY dt).take 2) = some dt.m := by
    rw [fmtMMDDYY_take2 dt hv]
    exact pyInt?_pad2 _ (by omega)
  have hddv : pyInt? (((fmtMMDDYY dt).drop 2).take 2) = some dt.d := by
    rw [fmtMMDDYY_drop2_take2 dt hv]
    have hd : dt.d < 100 := by
      have h1 := daysInMonth_le dt.y dt.m
      omega
    exact pyInt?_pad2 _ hd
  have hdate : mkDate? dt.y dt.m dt.d = some dt := by
    unfold mkDate?
    rw [if_pos hv]
  have hcph : ((fmtMMDDYY dt ++ cpc :: ss).drop 6).head? = some cpc := by
    rw [List.drop_left' h6]
    rfl
  have hmil : (fmtMMDDYY dt ++ cpc :: ss).drop 7 = ss := by
    have hsplit7 : fmtMMDDYY dt ++ cpc :: ss = (fmtMMDDYY dt ++ [cpc]) ++ ss := by
      simp
    rw [hsplit7]
    exact List.drop_left' (by
      simp only [List.length_append, h6, List.length_cons, List.length_nil])
  have hfmt : ¬(((pstr "underscore" : PStr) == pstr "dot") = true) := by decide
  simp only [parseTdaSymbol]
  rw [if_neg hfmt]
  simp only [hsplit, List.headD_cons, hidx, he6, hyyv, hmmv, hddv, hdate, hcph, hmil, hk,
    Option.bind_eq_bind, Option.some_bind]

theorem buildTypeChar_of_CP (cpc : Char) (h : cpc = 'C' ∨ cpc = 'P') :
    buildTypeChar [cpc] = cpc := by
  rcases h with h | h
  · rw [h]
    decide
  · rw [h]
    decide

/-- C3 amended: the round trip holds for the underscore sub-variant.  For a
well-formed underscore TDA symbol (nonempty underscore-free underlying not
starting with a dot, valid date in 2000-2099, `C`/`P` type character, and a
canonically rendered strike inside the `floatReprSafe` domain where the
binary64 float conversions are exact), re-encoding the parsed fields in the
underscore variant reproduces the symbol exactly.  For the dot sub-variant the decoder
rotates the 6 date digits left by two (reading `YYMMDD` and producing
`MMDDYY` for the underscore decode path) while the builder emits `MMDDYY`,
so the dot round trip fails; see the counterexample. -/
theorem C3_amended_underscore_roundtrip (U : PStr) (dt : Date) (cpc : Char) (ss : PStr)
    (hU : U ≠ [] ∧ '_' ∉ U ∧ pStartsWith (pstr ".") U = false)
    (hv : validDate dt) (hy : 2000 ≤ dt.y ∧ dt.y < 2100)
    (hcp : cpc = 'C' ∨ cpc = 'P')
    (hss : tdaStrikeCanon ss = true) :
    ∃ r, parse_option_symbol_from_tda (pstr "20")
        (U ++ '_' :: (fmtMMDDYY dt ++ cpc :: ss)) = some r ∧
      build_option_symbol_for_tda r.underlying_symbol (.date r.expiry) [r.call_or_put]
          r.strike (pstr "underscore")
        = U ++ '_' :: (fmtMMDDYY dt ++ cpc :: ss) := by
  obtain ⟨k, hk, hrender⟩ : ∃ k, pyFloatStrike? ss = some k ∧
      tdaStrikeRender (tdaStrikeNormalize k) = ss := by
    unfold tdaStrikeCanon at hss
    cases hq : pyFloatStrike? ss with
    | none =>
      rw [hq] at hss
      exact Bool.noConfusion (show false = true from hss)
    | some k =>
      rw [hq] at hss
      exact ⟨k, rfl,
        eq_of_beq (show (tdaStrikeRender (tdaStrikeNormalize k) == ss) = true from hss)⟩
  have hcp_ne : cpc ≠ '_' := by
    rcases hcp with h | h
    · rw [h]; decide
    · rw [h]; decide
  have hparse := parseTda_underscore_concat U dt cpc ss k hU.2.1 hv hy hcp_ne hk
  obtain ⟨u0, utl, hU0⟩ : ∃ u0 utl, U = u0 :: utl := by
    cases U with
    | nil => exact absurd rfl hU.1
    | cons a b => exact ⟨a, b, rfl⟩
  have hu0 : u0 ≠ '.' := by
    have h2 := hU.2.2
    rw [hU0] at h2
    have h3 : (([u0] : PStr) == pstr ".") = false := h2
    intro hq
    rw [hq] at h3
    exact absurd h3 (by decide)
  have hswfalse : pStartsWith (pstr ".") (U ++ '_' :: (fmtMMDDYY dt ++ cpc :: ss)) = false := by
    rw [hU0]
    unfold pStartsWith
    rw [beq_eq_false_iff_ne]
    intro hq
    exact hu0 (List.head_eq_of_cons_eq (show ([u0] : PStr) = ['.'] from hq))
  have hvariant : tdaVariantOf (U ++ '_' :: (fmtMMDDYY dt ++ cpc :: ss)) = pstr "underscore" := by
    unfold tdaVariantOf
    rw [hswfalse, if_neg (show ¬(false = true) from by decide)]
  refine ⟨⟨U, dt, cpc, k, U ++ '_' :: (fmtMMDDYY dt ++ cpc :: ss)⟩, ?_, ?_⟩
  · unfold parse_option_symbol_from_tda
    rw [hvariant]
    exact hparse
  · have hb : build_option_symbol_for_tda U (.date dt) [cpc] k (pstr "underscore")
        = U ++ '_' :: (fmtMMDDYY dt ++ buildTypeChar [cpc]
            :: tdaStrikeRender (tdaStrikeNormalize k)) := rfl
    rw [hb, buildTypeChar_of_CP cpc hcp, hrender]

/-- Witness for the amended C3 at `("TSLA", 2021-10-15, 'C', "125")`, whose
symbol is `"TSLA_101521C125"`. -/
theorem C3_amended_underscore_roundtrip_witness :
    ∃ r, parse_option_symbol_from_tda (pstr "20")
        (pstr "TSLA" ++ '_' :: (fmtMMDDYY ⟨2021, 10, 15⟩ ++ 'C' :: pstr "125")) = some r ∧
      build_option_symbol_for_tda r.underlying_symbol (.date r.expiry) [r.call_or_put]
          r.strike (pstr "underscore")
        = pstr "TSLA" ++ '_' :: (fmtMMDDYY ⟨2021, 10, 15⟩ ++ 'C' :: pstr "125") :=
  C3_amended_underscore_roundtrip (pstr "TSLA") ⟨2021, 10, 15⟩ 'C' (pstr "125")
    (by decide) (by decide) (by decide) (by decide) (by decide)

end PolygonOptions
